import Mathlib

/-!
Verification development for the Smart-Gallery repository.

The repository ships a Next.js frontend (`frontend/lib/store.ts`,
`frontend/lib/api.ts`, `frontend/types/index.ts`, the React components) that
talks to a FastAPI backend holding the vector / clustering engine.  The
frontend sources are embedded here faithfully; the backend engine (vector
store, similarity index, cluster graph) is not part of the shipped sources
and is modelled from the specification where a claim needs it.

Numeric data (JS `number`, Python floats) is modelled with `ℚ`, exact
rational arithmetic standing in for IEEE floats.
-/

namespace Frontend

/-- Bounding box of a detection or face, from `types/index.ts` `BoundingBox`. -/
structure BoundingBox where
  x1 : ℚ
  y1 : ℚ
  x2 : ℚ
  y2 : ℚ
deriving DecidableEq, Repr

/-- Object detection record, from `types/index.ts` `Detection`. -/
structure Detection where
  class_name : String
  confidence : ℚ
  bbox : BoundingBox
deriving DecidableEq, Repr

/-- Face record, from `types/index.ts` `Face`. -/
structure Face where
  id : String
  bbox : BoundingBox
  confidence : ℚ
  age : Option Nat
  gender : Option String
  cluster_id : Option String
  embedding : Option (List ℚ)
deriving DecidableEq, Repr

/-- Photo record, from `types/index.ts` `Photo`. -/
structure Photo where
  id : String
  filename : String
  original_filename : String
  upload_date : String
  width : Nat
  height : Nat
  file_size : Nat
  mime_type : String
  detections : List Detection
  faces : List Face
  clip_embedding : Option (List ℚ)
  thumbnail_url : String
  image_url : String
deriving DecidableEq, Repr

/-- Face cluster record, from `types/index.ts` `Cluster`. -/
structure Cluster where
  id : String
  name : Option String
  face_count : Nat
  representative_photo_id : String
  photo_ids : List String
deriving DecidableEq, Repr

/-- Object category record, from `types/index.ts` `Category`. -/
structure Category where
  name : String
  count : Nat
  photo_ids : List String
deriving DecidableEq, Repr

/-- Gallery statistics record, from `types/index.ts` `GalleryStats`.
The `categories` dictionary is modelled as an association list. -/
structure GalleryStats where
  total_photos : Nat
  total_faces : Nat
  total_people : Nat
  total_objects : Nat
  categories : List (String × Nat)
  storage_used : Nat
deriving DecidableEq, Repr

/-- The slice of the zustand store state (`lib/store.ts` `GalleryState`) that
the data-mutating actions read and write. -/
structure GalleryState where
  photos : List Photo
  clusters : List Cluster
  categories : List Category
  stats : Option GalleryStats
  error : Option String
deriving DecidableEq, Repr

/-- Result of an HTTP call, as seen by `request` in `lib/api.ts`:
`ok`/`status`/`statusText` of the `fetch` response and the decoded body. -/
structure HttpResponse where
  ok : Bool
  status : Nat
  statusText : String
  body : String
deriving DecidableEq, Repr

/-- The `request` helper of `lib/api.ts`: a non-ok response is turned into a
thrown `Error` carrying the status line; an ok response yields the body.
The thrown error is modelled as `Except.error`. -/
def request (resp : HttpResponse) : Except String String :=
  if resp.ok then Except.ok resp.body
  else Except.error ("API Error: " ++ toString resp.status ++ " " ++ resp.statusText)

/-- The `fetchStats` action of `lib/store.ts`: on success stores the stats and
clears the error field, on failure records the error message. The outcome of
the underlying `api.getStats()` call is passed in as an `Except`. -/
def fetchStats (s : GalleryState) (result : Except String GalleryStats) : GalleryState :=
  match result with
  | Except.ok st => { s with stats := some st, error := none }
  | Except.error m => { s with error := some m }

/-- The `deletePhoto` action of `lib/store.ts`.  The outcome of the
underlying `api.deletePhoto(id)` call and of the follow-up `api.getStats()`
call are passed in as `Except` values.  The second component of the result is
the exception (if any) that the action re-throws to its own caller: the
source wraps the whole body in `try/catch` and the catch branch only records
the message in the `error` field, so the action itself never rejects. -/
def deletePhoto (s : GalleryState) (id : String)
    (apiDelete : Except String Unit) (statsResult : Except String GalleryStats) :
    GalleryState × Option String :=
  match apiDelete with
  | Except.error m => ({ s with error := some m }, none)
  | Except.ok _ =>
      (fetchStats { s with photos := s.photos.filter (fun p => p.id != id) } statsResult, none)

/-- The `updateClusterName` action of `lib/store.ts`: on success of the PATCH
request it maps over the cluster list, replacing the `name` of the cluster
with the matching id by the name of the server's response cluster; on failure
it records the error message. -/
def updateClusterName (s : GalleryState) (clusterId : String)
    (result : Except String Cluster) : GalleryState :=
  match result with
  | Except.error m => { s with error := some m }
  | Except.ok updated =>
      let rename := fun (c : Cluster) =>
        if c.id == clusterId then { c with name := updated.name } else c
      { s with clusters := s.clusters.map rename }

/-- One step of the `reduce` in `groupByDate` (`components/PhotoGrid.tsx`):
append the photo to the group stored under its date key, or append a fresh
group at the end (JS object insertion order for non-numeric string keys). -/
def upsert (d : String) (p : Photo) : List (String × List Photo) → List (String × List Photo)
  | [] => [(d, [p])]
  | (k, g) :: rest => if k = d then (k, g ++ [p]) :: rest else (k, g) :: upsert d p rest

/-- The `groupByDate` helper of `components/PhotoGrid.tsx`.  The call
`new Date(photo.upload_date).toLocaleDateString(en-GB, ...)` is modelled by an
arbitrary day-string formatting function `dateKey` applied to the photo's
`upload_date`; the grouping logic is independent of the formatter. -/
def groupByDate (dateKey : String → String) (ps : List Photo) :
    List (String × List Photo) :=
  ps.foldl (fun acc p => upsert (dateKey p.upload_date) p acc) []

/-- The `currentIndex` computation of the `PhotoViewer` component:
`photos.findIndex((p) => p.id === photo?.id)`, JS semantics returning `-1`
when no element matches (in particular when `photo` is `null`, modelled by
`pid = none`). -/
def currentIndex : List Photo → Option String → Int
  | [], _ => -1
  | p :: rest, pid =>
      if some p.id = pid then 0
      else if currentIndex rest pid = -1 then -1 else currentIndex rest pid + 1

/-- The `hasPrev` guard of the `PhotoViewer` component. -/
def hasPrev (ps : List Photo) (pid : Option String) : Prop :=
  0 < currentIndex ps pid

instance (ps : List Photo) (pid : Option String) : Decidable (hasPrev ps pid) := by
  unfold hasPrev; infer_instance

/-- The `hasNext` guard of the `PhotoViewer` component
(`currentIndex < photos.length - 1` in JS integer arithmetic). -/
def hasNext (ps : List Photo) (pid : Option String) : Prop :=
  currentIndex ps pid < (ps.length : Int) - 1

instance (ps : List Photo) (pid : Option String) : Decidable (hasNext ps pid) := by
  unfold hasNext; infer_instance

/-- HTTP methods used by the `api` object of `lib/api.ts`. -/
inductive HttpMethod
  | GET
  | POST
  | PATCH
  | DELETE
deriving DecidableEq, Repr

/-- Shape of the data an `api` operation resolves with, read off the
TypeScript return types in `lib/api.ts` and the interfaces of
`types/index.ts`. -/
inductive Payload
  | photoList
  | photo
  | unit
  | urlString
  | clusterList
  | cluster
  | categoryList
  | statsPayload
  | searchResults
deriving DecidableEq, Repr

/-- One operation of the `api` object of `lib/api.ts`: its method name,
HTTP verb, endpoint path (path parameters written `:id`) and response
payload shape. -/
structure ApiOp where
  name : String
  method : HttpMethod
  path : String
  returns : Payload
deriving DecidableEq, Repr

/-- The complete `api` object of `lib/api.ts`, one entry per method of the
exported object literal, in source order. -/
def apiSurface : List ApiOp :=
  [ ⟨"getPhotos", HttpMethod.GET, "/photos", Payload.photoList⟩,
    ⟨"uploadPhoto", HttpMethod.POST, "/photos/upload", Payload.photo⟩,
    ⟨"uploadPhotos", HttpMethod.POST, "/photos/upload", Payload.photoList⟩,
    ⟨"deletePhoto", HttpMethod.DELETE, "/photos/:id", Payload.unit⟩,
    ⟨"getImageUrl", HttpMethod.GET, "/photos/:id/image", Payload.urlString⟩,
    ⟨"getThumbnailUrl", HttpMethod.GET, "/photos/:id/thumbnail", Payload.urlString⟩,
    ⟨"getClusters", HttpMethod.GET, "/clusters", Payload.clusterList⟩,
    ⟨"updateCluster", HttpMethod.PATCH, "/clusters/:id", Payload.cluster⟩,
    ⟨"getCategories", HttpMethod.GET, "/categories", Payload.categoryList⟩,
    ⟨"getStats", HttpMethod.GET, "/stats", Payload.statsPayload⟩,
    ⟨"search", HttpMethod.GET, "/search", Payload.searchResults⟩ ]

/-- Caller-visible capabilities named by the specification's API-collaborator
contract (and the capabilities the shipped API actually has). -/
inductive Capability
  | listClusters
  | clusterMemberIds
  | renameCluster
  | mergeClusters
  | vectorKnnSearch
  | vectorThresholdSearch
  | textSearch
  | deleteEntityVectors
  | listPhotos
  | uploadPhoto
  | listCategories
  | galleryStats
  | imageBytes
deriving DecidableEq, Repr

/-- Capabilities provided by each `api` operation, read off the operation's
endpoint semantics: `GET /clusters` returns `Cluster` records that carry
`id`, `name`, `face_count`, `representative_photo_id` and the member
`photo_ids`, hence both `listClusters` and `clusterMemberIds`;
`PATCH /clusters/:id` updates the display name; `DELETE /photos/:id` removes
the photo together with its stored vectors; `GET /search` takes a free-form
text query `q`, not a raw vector. -/
def capabilitiesOf (op : ApiOp) : List Capability :=
  if op.name = "getPhotos" then [Capability.listPhotos]
  else if op.name = "uploadPhoto" ∨ op.name = "uploadPhotos" then [Capability.uploadPhoto]
  else if op.name = "deletePhoto" then [Capability.deleteEntityVectors]
  else if op.name = "getImageUrl" ∨ op.name = "getThumbnailUrl" then [Capability.imageBytes]
  else if op.name = "getClusters" then [Capability.listClusters, Capability.clusterMemberIds]
  else if op.name = "updateCluster" then [Capability.renameCluster]
  else if op.name = "getCategories" then [Capability.listCategories]
  else if op.name = "getStats" then [Capability.galleryStats]
  else if op.name = "search" then [Capability.textSearch]
  else []

/-- All capabilities reachable through the shipped API client. -/
def apiCapabilities : List Capability :=
  apiSurface.flatMap capabilitiesOf

end Frontend

namespace Engine

/-- Embedding vectors: fixed-length sequences of numbers (§3), rationals
standing in for floats. -/
abbrev Vec := List ℚ

/-- Dot product of two vectors (componentwise, truncating at the shorter). -/
def dot : Vec → Vec → ℚ
  | [], _ => 0
  | _, [] => 0
  | a :: as, b :: bs => a * b + dot as bs

/-- Squared Euclidean norm. -/
def sqNorm (v : Vec) : ℚ := dot v v

/-- Modelled from the spec: cosine similarity (glossary: dot product divided
by the product of magnitudes) of the backend's missing vector service,
encoded exactly over `ℚ` as the sign-preserving square
`sign(dot) * dot² / (sqNorm a * sqNorm b)`.  This encoding is a strictly
monotone function of the true cosine, so comparisons, rankings and
thresholds agree with the cosine ordering while avoiding irrational square
roots. -/
def cosSimQ (a b : Vec) : ℚ :=
  let d := dot a b
  let den := sqNorm a * sqNorm b
  if den = 0 then 0
  else if d < 0 then -(d * d) / den else (d * d) / den

/-- Error taxonomy of the core (§7). -/
inductive VError
  | DimensionMismatch
  | NotFound
  | InvalidOperation
deriving DecidableEq, Repr

/-- Result ordering of similarity queries (§4.2): descending similarity
score, ties broken by ascending id.  `rank a b` means `a` comes no later
than `b`. -/
def rank (a b : Nat × ℚ) : Prop :=
  b.2 < a.2 ∨ (a.2 = b.2 ∧ a.1 ≤ b.1)

instance : DecidableRel rank := fun a b => by
  unfold rank; infer_instance

instance : IsTrans (Nat × ℚ) rank where
  trans a b c hab hbc := by
    rcases hab with h1 | ⟨h1, h1i⟩ <;> rcases hbc with h2 | ⟨h2, h2i⟩
    · exact Or.inl (h2.trans h1)
    · exact Or.inl (h2 ▸ h1)
    · exact Or.inl (h1 ▸ h2)
    · exact Or.inr ⟨h1.trans h2, h1i.trans h2i⟩

instance : IsAntisymm (Nat × ℚ) rank where
  antisymm a b hab hba := by
    rcases hab with h1 | ⟨h1, h1i⟩ <;> rcases hba with h2 | ⟨h2, h2i⟩
    · exact absurd (h1.trans h2) (lt_irrefl _)
    · exact absurd (h2 ▸ h1) (lt_irrefl _)
    · exact absurd (h1 ▸ h2) (lt_irrefl _)
    · exact Prod.ext (Nat.le_antisymm h1i h2i) h1

instance : IsTotal (Nat × ℚ) rank where
  total a b := by
    rcases lt_trichotomy a.2 b.2 with h | h | h
    · exact Or.inr (Or.inl h)
    · rcases Nat.le_total a.1 b.1 with hi | hi
      · exact Or.inl (Or.inr ⟨h, hi⟩)
      · exact Or.inr (Or.inr ⟨h.symm, hi⟩)
    · exact Or.inl (Or.inl h)

/-- Insert an element into a `rank`-sorted list, keeping it sorted. -/
def insertRank (x : Nat × ℚ) : List (Nat × ℚ) → List (Nat × ℚ)
  | [] => [x]
  | y :: ys => if rank x y then x :: y :: ys else y :: insertRank x ys

/-- Sort candidate `(id, score)` pairs by descending score, ties by
ascending id (insertion sort, the deterministic order §4.2 requires). -/
def sortRank : List (Nat × ℚ) → List (Nat × ℚ)
  | [] => []
  | x :: xs => insertRank x (sortRank xs)

/-- Modelled from the spec: the Similarity Index (§4.2) of the missing
backend vector service — a configured dimension, stored `(id, vector)`
entries, and tombstoned ids that queries must never return. -/
structure SimIndex where
  dim : Nat
  entries : List (Nat × Vec)
  tombstones : List Nat
deriving DecidableEq, Repr

/-- Live entries of the index: stored entries minus tombstones. -/
def SimIndex.live (idx : SimIndex) : List (Nat × Vec) :=
  idx.entries.filter (fun e => !(idx.tombstones.contains e.1))

/-- Modelled from the spec: `search_knn(query_vector, k)` of the missing
backend vector service (§4.2) — fails with `DimensionMismatch` when the
query length differs from the configured dimension, otherwise scores every
live entry by cosine similarity, sorts descending with ties by ascending
id, and returns the first `k` pairs. -/
def search_knn (idx : SimIndex) (q : Vec) (k : Nat) :
    Except VError (List (Nat × ℚ)) :=
  if q.length ≠ idx.dim then Except.error VError.DimensionMismatch
  else Except.ok ((sortRank (idx.live.map (fun e => (e.1, cosSimQ q e.2)))).take k)

/-- A person-cluster of the Cluster Graph (§4.3): stable numeric id, member
face ids, and the representative vector. -/
structure Cl where
  cid : Nat
  members : List Nat
  rep : Vec
deriving DecidableEq, Repr

/-- Configuration of the Cluster Graph: the face-similarity threshold (on
the `cosSimQ` scale) and the face-vector dimension (§9: explicit
configuration passed to the constructor). -/
structure EngineConfig where
  threshold : ℚ
  dim : Nat
deriving DecidableEq, Repr

/-- Modelled from the spec: the state of the missing backend clustering
service — the face Vector Store (live `(faceId, vector)` pairs) plus the
Cluster Graph over it, and a counter for fresh cluster ids. -/
structure EngineState where
  threshold : ℚ
  dim : Nat
  store : List (Nat × Vec)
  clusters : List Cl
  nextCid : Nat
deriving DecidableEq, Repr

/-- Zero vector of the given dimension. -/
def vzero (n : Nat) : Vec := List.replicate n 0

/-- Componentwise vector addition. -/
def vadd (a b : Vec) : Vec := List.zipWith (· + ·) a b

/-- Scalar multiple of a vector. -/
def vscale (c : ℚ) (v : Vec) : Vec := v.map (fun x => c * x)

/-- Sum of a list of vectors of dimension `n`. -/
def vsum (n : Nat) (vs : List Vec) : Vec := vs.foldl vadd (vzero n)

/-- Centroid (mean) of a list of vectors (§4.3: full recompute; the
re-normalisation to unit length is omitted because cosine similarity is
invariant under positive scaling, so it cannot change any comparison). -/
def centroid (n : Nat) (vs : List Vec) : Vec :=
  vscale (1 / (vs.length : ℚ)) (vsum n vs)

/-- Vector stored for a face id, empty if absent. -/
def lookupVec (store : List (Nat × Vec)) (i : Nat) : Vec :=
  match store.find? (fun e => e.1 == i) with
  | some e => e.2
  | none => []

/-- Vectors of a member list, looked up in the store (§3: the graph holds
ids only, vectors are owned by the Vector Store). -/
def memberVecs (store : List (Nat × Vec)) (ids : List Nat) : List Vec :=
  ids.map (lookupVec store)

/-- Score every cluster representative against a new face vector (§4.3
step 1: search over representatives, not raw member vectors). -/
def scoreClusters (v : Vec) (cs : List Cl) : List (Nat × ℚ) :=
  cs.map (fun c => (c.cid, cosSimQ v c.rep))

/-- Best candidate cluster for a new face (§4.3 steps 1 and 4): the
highest-similarity representative, ties resolved toward the lower cluster
id. -/
def chooseBest (v : Vec) (cs : List Cl) : Option (Nat × ℚ) :=
  (sortRank (scoreClusters v cs)).head?

/-- Update the first cluster carrying the given id. -/
def updateFirst (cid : Nat) (f : Cl → Cl) : List Cl → List Cl
  | [] => []
  | c :: cs => if c.cid = cid then f c :: cs else c :: updateFirst cid f cs

/-- Remove and return the first cluster carrying the given id. -/
def extractFirst (cid : Nat) : List Cl → Option (Cl × List Cl)
  | [] => none
  | c :: cs =>
      if c.cid = cid then some (c, cs)
      else
        match extractFirst cid cs with
        | none => none
        | some (x, rest) => some (x, c :: rest)

/-- Modelled from the spec: the assignment algorithm (§4.3) of the missing
backend clustering service.  Wrong dimension fails with
`DimensionMismatch` leaving state unchanged; re-assignment of an already
live face id is the identity (§7: idempotence keyed on entity id); the
best representative at or above the threshold receives the face and its
centroid is recomputed; otherwise a fresh singleton cluster is created
whose representative is the face vector itself. -/
def assign (E : EngineState) (fid : Nat) (v : Vec) : Except VError EngineState :=
  if v.length ≠ E.dim then Except.error VError.DimensionMismatch
  else if (E.store.map Prod.fst).contains fid then Except.ok E
  else
    match chooseBest v E.clusters with
    | some (cid, s) =>
        if E.threshold ≤ s then
          Except.ok ⟨E.threshold, E.dim, (fid, v) :: E.store,
            updateFirst cid
              (fun c => Cl.mk c.cid (fid :: c.members)
                (centroid E.dim (memberVecs ((fid, v) :: E.store) (fid :: c.members))))
              E.clusters,
            E.nextCid⟩
        else
          Except.ok ⟨E.threshold, E.dim, (fid, v) :: E.store,
            E.clusters ++ [⟨E.nextCid, [fid], v⟩], E.nextCid + 1⟩
    | none =>
        Except.ok ⟨E.threshold, E.dim, (fid, v) :: E.store,
          E.clusters ++ [⟨E.nextCid, [fid], v⟩], E.nextCid + 1⟩

/-- Modelled from the spec: removal on face deletion (§4.3) of the missing
backend clustering service.  An unknown id fails with `NotFound`; otherwise
the face leaves the store and its cluster, emptied clusters are destroyed,
and surviving representatives are recomputed as full centroids. -/
def removeFace (E : EngineState) (fid : Nat) : Except VError EngineState :=
  if (E.store.map Prod.fst).contains fid then
    Except.ok ⟨E.threshold, E.dim, E.store.filter (fun e => e.1 != fid),
      (E.clusters.map (fun c =>
        Cl.mk c.cid (c.members.filter (fun m => m != fid))
          (centroid E.dim (memberVecs (E.store.filter (fun e => e.1 != fid))
            (c.members.filter (fun m => m != fid)))))).filter
        (fun c => !c.members.isEmpty),
      E.nextCid⟩
  else Except.error VError.NotFound

/-- Modelled from the spec: explicit merge (§4.3) of the missing backend
clustering service.  Self-merge fails with `InvalidOperation`, a missing
cluster id with `NotFound`; otherwise all members of `b` move into `a`,
`a`'s representative becomes the centroid over the union, and `b` is
destroyed. -/
def mergeClusters (E : EngineState) (a b : Nat) : Except VError EngineState :=
  if a = b then Except.error VError.InvalidOperation
  else
    match extractFirst b E.clusters with
    | none => Except.error VError.NotFound
    | some (bCl, rest) =>
        if (rest.map Cl.cid).contains a then
          Except.ok ⟨E.threshold, E.dim, E.store,
            updateFirst a
              (fun c => Cl.mk c.cid (bCl.members ++ c.members)
                (centroid E.dim (memberVecs E.store (bCl.members ++ c.members))))
              rest,
            E.nextCid⟩
        else Except.error VError.NotFound

/-- Operations of the cluster-graph state machine. -/
inductive Op
  | assignOp (fid : Nat) (v : Vec)
  | removeOp (fid : Nat)
  | mergeOp (a b : Nat)
deriving DecidableEq, Repr

/-- Apply one operation; a failing operation leaves the state unchanged
(§4.3 failure semantics: all-or-nothing, no partial mutation). -/
def step (E : EngineState) (op : Op) : EngineState :=
  match op with
  | Op.assignOp fid v =>
      match assign E fid v with
      | Except.ok E2 => E2
      | Except.error _ => E
  | Op.removeOp fid =>
      match removeFace E fid with
      | Except.ok E2 => E2
      | Except.error _ => E
  | Op.mergeOp a b =>
      match mergeClusters E a b with
      | Except.ok E2 => E2
      | Except.error _ => E

/-- Fresh engine with no faces and no clusters. -/
def initEngine (cfg : EngineConfig) : EngineState :=
  ⟨cfg.threshold, cfg.dim, [], [], 0⟩

/-- Replay a sequence of operations from the fresh engine. -/
def replay (cfg : EngineConfig) (ops : List Op) : EngineState :=
  ops.foldl step (initEngine cfg)

/-- Currently live face ids: the ids held by the face Vector Store. -/
def liveIds (E : EngineState) : List Nat := E.store.map Prod.fst

/-- The cluster partition, observationally: each cluster's id with its
member set. -/
def partitionOf (E : EngineState) : List (Nat × List Nat) :=
  E.clusters.map (fun c => (c.cid, c.members))

end Engine

namespace Frontend

/-- Sample photo with the given id, for concrete instantiations. -/
def mkPhoto (s : String) : Photo :=
  ⟨s, "", "", "", 0, 0, 0, "", [], [], none, "", ""⟩

/-- Sample photo list with ids a, b, c. -/
def samplePhotos : List Photo :=
  [mkPhoto "a", mkPhoto "b", mkPhoto "c"]

/-- Sample cluster with the given id and name. -/
def mkCluster (i : String) (n : Option String) : Cluster :=
  ⟨i, n, 2, "p1", ["p1", "p2"]⟩

/-- Sample gallery state. -/
def sampleState : GalleryState :=
  ⟨samplePhotos, [mkCluster "c1" none, mkCluster "c2" (some "Bob")], [], none, none⟩

/-- Sample photo with the given id and upload date, for concrete grouping
instantiations. -/
def mkPhotoAt (s d : String) : Photo :=
  ⟨s, "", "", d, 0, 0, 0, "", [], [], none, "", ""⟩

end Frontend

namespace Engine

/-- Sample similarity index over dimension 2, entry 2 tombstoned. -/
def sampleIdx : SimIndex :=
  ⟨2, [(1, [1, 0]), (2, [0, 1]), (3, [1, 1])], [2]⟩

/-- Sample engine configuration: the spec's example threshold 0.9 on the
cosine scale is 0.81 on the `cosSimQ` scale. -/
def sampleCfg : EngineConfig := ⟨81 / 100, 2⟩

/-- The spec's §8 example operation sequence. -/
def sampleOps : List Op :=
  [Op.assignOp 1 [1, 0], Op.assignOp 2 [99 / 100, 14 / 100], Op.assignOp 3 [0, 1],
   Op.removeOp 2, Op.mergeOp 0 1]

/-- Sample clusters for enumeration-order experiments. -/
def sampleClA : Cl := ⟨0, [1], [1, 0]⟩

/-- Second sample cluster. -/
def sampleClB : Cl := ⟨1, [2], [0, 1]⟩

end Engine

namespace Frontend

/-- Auxiliary bounds for the viewer's current index: JS `findIndex` returns
`-1` or a valid position. -/
theorem currentIndex_bounds (ps : List Photo) (pid : Option String) :
    -1 ≤ currentIndex ps pid ∧ currentIndex ps pid < (ps.length : Int) := by
  induction ps with
  | nil =>
      simp only [currentIndex, List.length_nil, Nat.cast_zero]
      omega
  | cons p rest ih =>
      simp only [currentIndex, List.length_cons]
      by_cases h : some p.id = pid
      · rw [if_pos h]
        omega
      · rw [if_neg h]
        by_cases h2 : currentIndex rest pid = -1
        · rw [if_pos h2]
          omega
        · rw [if_neg h2]
          omega

/-- C10: the photo viewer's navigation handlers never index outside the
photos array: `handlePrev` runs only behind the `hasPrev` guard
(`currentIndex > 0`) and then reads `photos[currentIndex - 1]`, `handleNext`
only behind `hasNext` (`currentIndex < photos.length - 1`) and then reads
`photos[currentIndex + 1]`; both accessed indices are within bounds, also
when the current photo is absent and the index is `-1`. -/
theorem photoViewer_nav_safe (ps : List Photo) (pid : Option String) :
    (hasPrev ps pid →
      0 ≤ currentIndex ps pid - 1 ∧ currentIndex ps pid - 1 < (ps.length : Int)) ∧
    (hasNext ps pid →
      0 ≤ currentIndex ps pid + 1 ∧ currentIndex ps pid + 1 < (ps.length : Int)) := by
  have h := currentIndex_bounds ps pid
  unfold hasPrev hasNext
  omega

/-- Witness for C10 at a concrete three-photo list with the middle photo
open: both guards hold and both neighbouring indices are in bounds. -/
theorem photoViewer_nav_safe_witness :
    (0 ≤ currentIndex samplePhotos (some "b") - 1 ∧
      currentIndex samplePhotos (some "b") - 1 < (samplePhotos.length : Int)) ∧
    (0 ≤ currentIndex samplePhotos (some "b") + 1 ∧
      currentIndex samplePhotos (some "b") + 1 < (samplePhotos.length : Int)) :=
  ⟨(photoViewer_nav_safe samplePhotos (some "b")).1 (by decide),
   (photoViewer_nav_safe samplePhotos (some "b")).2 (by decide)⟩

/-- C6: a failed `deletePhoto` leaves previously committed state untouched —
photos, clusters, categories and stats are exactly as before, only the
`error` field records the message. -/
theorem deletePhoto_failure_frame (s : GalleryState) (id m : String)
    (r : Except String GalleryStats) :
    (deletePhoto s id (Except.error m) r).1.photos = s.photos ∧
    (deletePhoto s id (Except.error m) r).1.clusters = s.clusters ∧
    (deletePhoto s id (Except.error m) r).1.categories = s.categories ∧
    (deletePhoto s id (Except.error m) r).1.stats = s.stats ∧
    (deletePhoto s id (Except.error m) r).1.error = some m := by
  simp [deletePhoto]

/-- C5 counterexample: at a concrete failing delete request, the claim that
`deletePhoto` re-throws the failure to its own caller is false — the action
resolves normally (re-thrown exception `none`), the error being absorbed
into the state's `error` field instead. -/
theorem deletePhoto_no_rethrow_counterexample :
    ¬ ((deletePhoto sampleState "p1"
          (Except.error "API Error: 500 Internal Server Error")
          (Except.error "x")).2
        = some "API Error: 500 Internal Server Error") := by
  simp [deletePhoto]

/-- C5 amended: the HTTP helper `request` does return every failure to its
immediate caller (a non-ok response becomes a thrown `API Error`), and the
store's `deletePhoto` receives that failure but absorbs it: it records the
message in the `error` field, applies no part of the mutation, and resolves
without re-throwing — the failure is surfaced in state rather than
propagated further. -/
theorem deletePhoto_error_recorded (s : GalleryState) (id m : String)
    (r : Except String GalleryStats) (n : Nat) (t body : String) :
    request ⟨false, n, t, body⟩
        = Except.error ("API Error: " ++ toString n ++ " " ++ t) ∧
    (deletePhoto s id (Except.error m) r).1.error = some m ∧
    (deletePhoto s id (Except.error m) r).1.photos = s.photos ∧
    (deletePhoto s id (Except.error m) r).2 = none := by
  simp [request, deletePhoto]

/-- C8: a successful `deletePhoto` keeps exactly the photos whose id differs
from the deleted one, in their original relative order (the new list is a
sublist of the old), and leaves the clusters and categories lists
unmodified. -/
theorem deletePhoto_success_spec (s : GalleryState) (id : String)
    (r : Except String GalleryStats) :
    List.Sublist (deletePhoto s id (Except.ok ()) r).1.photos s.photos ∧
    (∀ p : Photo,
      p ∈ (deletePhoto s id (Except.ok ()) r).1.photos ↔ p ∈ s.photos ∧ p.id ≠ id) ∧
    (deletePhoto s id (Except.ok ()) r).1.clusters = s.clusters ∧
    (deletePhoto s id (Except.ok ()) r).1.categories = s.categories := by
  cases r with
  | ok st =>
      refine ⟨?_, ?_, rfl, rfl⟩
      · exact List.filter_sublist s.photos
      · intro p
        simp [deletePhoto, fetchStats, List.mem_filter]
  | error m =>
      refine ⟨?_, ?_, rfl, rfl⟩
      · exact List.filter_sublist s.photos
      · intro p
        simp [deletePhoto, fetchStats, List.mem_filter]

/-- C4: renaming a cluster changes only that cluster's display label —
photos (hence all vector data), categories and stats are untouched, every
cluster keeps its id, face count, representative photo and member list, and
every cluster whose id differs from the renamed one is exactly unchanged. -/
theorem updateClusterName_frame (s : GalleryState) (clusterId : String) (u : Cluster) :
    (updateClusterName s clusterId (Except.ok u)).photos = s.photos ∧
    (updateClusterName s clusterId (Except.ok u)).categories = s.categories ∧
    (updateClusterName s clusterId (Except.ok u)).stats = s.stats ∧
    List.Forall₂
      (fun c c2 : Cluster =>
        c2.id = c.id ∧ c2.face_count = c.face_count ∧
        c2.representative_photo_id = c.representative_photo_id ∧
        c2.photo_ids = c.photo_ids ∧ (c.id ≠ clusterId → c2 = c))
      s.clusters (updateClusterName s clusterId (Except.ok u)).clusters := by
  refine ⟨rfl, rfl, rfl, ?_⟩
  simp only [updateClusterName]
  rw [List.forall₂_map_right_iff]
  rw [List.forall₂_same]
  intro c _
  by_cases h : c.id = clusterId
  · simp [h]
  · simp [h]

/-- Witness for C4 at a concrete state: renaming cluster c1 to Alice keeps
everything except the label. -/
theorem updateClusterName_frame_witness :
    (updateClusterName sampleState "c1" (Except.ok (mkCluster "c1" (some "Alice")))).photos
        = sampleState.photos ∧
    (updateClusterName sampleState "c1" (Except.ok (mkCluster "c1" (some "Alice")))).categories
        = sampleState.categories ∧
    (updateClusterName sampleState "c1" (Except.ok (mkCluster "c1" (some "Alice")))).stats
        = sampleState.stats ∧
    List.Forall₂
      (fun c c2 : Cluster =>
        c2.id = c.id ∧ c2.face_count = c.face_count ∧
        c2.representative_photo_id = c.representative_photo_id ∧
        c2.photo_ids = c.photo_ids ∧ (c.id ≠ "c1" → c2 = c))
      sampleState.clusters
      (updateClusterName sampleState "c1" (Except.ok (mkCluster "c1" (some "Alice")))).clusters :=
  updateClusterName_frame sampleState "c1" (mkCluster "c1" (some "Alice"))

/-- C3 counterexample: the shipped API client exposes no operation that
merges two clusters, refuting the claimed surface at the concrete
capability `mergeClusters`. -/
theorem apiSurface_no_merge_counterexample :
    Capability.mergeClusters ∉ apiCapabilities := by
  decide

/-- C3 amended: the API surface provides cluster listing (whose `Cluster`
records carry id, label, size, representative photo and the member photo
ids), cluster rename, text-query semantic search and photo (entity vector)
deletion — but it exposes neither a cluster merge nor a k-nearest-neighbour
or threshold search by arbitrary query vector. -/
theorem apiSurface_capabilities :
    Capability.listClusters ∈ apiCapabilities ∧
    Capability.clusterMemberIds ∈ apiCapabilities ∧
    Capability.renameCluster ∈ apiCapabilities ∧
    Capability.textSearch ∈ apiCapabilities ∧
    Capability.deleteEntityVectors ∈ apiCapabilities ∧
    Capability.mergeClusters ∉ apiCapabilities ∧
    Capability.vectorKnnSearch ∉ apiCapabilities ∧
    Capability.vectorThresholdSearch ∉ apiCapabilities := by
  decide

end Frontend

namespace Frontend

/-- Re-grouping a key that is already present keeps the key list. -/
theorem upsert_map_fst_of_mem (d : String) (p : Photo) :
    ∀ acc : List (String × List Photo), d ∈ acc.map Prod.fst →
      (upsert d p acc).map Prod.fst = acc.map Prod.fst := by
  intro acc
  induction acc with
  | nil => intro h; simp at h
  | cons hd tl ih =>
      obtain ⟨k, g⟩ := hd
      intro h
      by_cases hk : k = d
      · simp [upsert, hk]
      · have hd2 : d ∈ tl.map Prod.fst := by
          simp only [List.map_cons, List.mem_cons] at h
          rcases h with h | h
          · exact absurd h.symm hk
          · exact h
        simp [upsert, hk, ih hd2]

/-- Grouping under a fresh key appends a fresh singleton group at the end. -/
theorem upsert_of_not_mem (d : String) (p : Photo) :
    ∀ acc : List (String × List Photo), d ∉ acc.map Prod.fst →
      upsert d p acc = acc ++ [(d, [p])] := by
  intro acc
  induction acc with
  | nil => intro _; simp [upsert]
  | cons hd tl ih =>
      obtain ⟨k, g⟩ := hd
      intro h
      simp only [List.map_cons, List.mem_cons, not_or] at h
      have hk : ¬ k = d := fun hkd => h.1 hkd.symm
      simp [upsert, hk, ih h.2]

/-- One `upsert` adds exactly the new photo to the multiset of grouped
photos. -/
theorem upsert_flatMap_perm (d : String) (p : Photo) :
    ∀ acc : List (String × List Photo),
      ((upsert d p acc).flatMap Prod.snd).Perm ((acc.flatMap Prod.snd) ++ [p]) := by
  intro acc
  induction acc with
  | nil => simp [upsert]
  | cons hd tl ih =>
      obtain ⟨k, g⟩ := hd
      by_cases hk : k = d
      · simp only [upsert, if_pos hk, List.flatMap_cons]
        have h1 : (g ++ [p]) ++ tl.flatMap Prod.snd
            = g ++ ([p] ++ tl.flatMap Prod.snd) := by
          rw [List.append_assoc]
        rw [h1, List.append_assoc g (tl.flatMap Prod.snd) [p]]
        exact List.Perm.append_left g List.perm_append_comm
      · simp only [upsert, if_neg hk, List.flatMap_cons]
        rw [List.append_assoc]
        exact List.Perm.append_left g ih

/-- If a key is absent from the accumulated groups and the groups hold
exactly the processed prefix, then no processed photo bears that key. -/
theorem filter_key_nil_of_fresh (kf : Photo → String) (pref : List Photo)
    (acc : List (String × List Photo)) (d : String)
    (hg : ∀ d2 g2, (d2, g2) ∈ acc → g2 = pref.filter (fun x => kf x == d2))
    (hperm : (acc.flatMap Prod.snd).Perm pref)
    (hfresh : d ∉ acc.map Prod.fst) :
    pref.filter (fun x => kf x == d) = [] := by
  rw [List.filter_eq_nil_iff]
  intro q hq
  intro hqd
  have hqd2 : kf q = d := by simpa using hqd
  have hq2 : q ∈ acc.flatMap Prod.snd := hperm.mem_iff.mpr hq
  obtain ⟨pair, hpair, hqg⟩ := List.mem_flatMap.mp hq2
  obtain ⟨d2, g2⟩ := pair
  have hg2 : g2 = pref.filter (fun x => kf x == d2) := hg d2 g2 hpair
  rw [hg2] at hqg
  have : (kf q == d2) = true := (List.mem_filter.mp hqg).2
  have hd2 : kf q = d2 := by simpa using this
  apply hfresh
  rw [← hqd2, hd2]
  exact List.mem_map.mpr ⟨(d2, g2), hpair, rfl⟩

end Frontend

namespace Frontend

/-- Filter characterisation is preserved by `upsert` when the photo's key is
already present among the groups. -/
theorem upsert_groups_of_mem (kf : Photo → String) (p : Photo) (d : String)
    (hdp : kf p = d) (pref : List Photo) :
    ∀ acc : List (String × List Photo),
      (acc.map Prod.fst).Nodup →
      (∀ d2 g2, (d2, g2) ∈ acc → g2 = pref.filter (fun x => kf x == d2)) →
      d ∈ acc.map Prod.fst →
      ∀ d2 g2, (d2, g2) ∈ upsert d p acc →
        g2 = (pref ++ [p]).filter (fun x => kf x == d2) := by
  intro acc
  induction acc with
  | nil => intro _ _ h; simp at h
  | cons hd tl ih =>
      obtain ⟨k, g⟩ := hd
      intro hnd hg hmem d2 g2 hin
      have hnd2 : (k :: tl.map Prod.fst).Nodup := by simpa using hnd
      have hndk : k ∉ tl.map Prod.fst := (List.nodup_cons.mp hnd2).1
      have hndtl : (tl.map Prod.fst).Nodup := (List.nodup_cons.mp hnd2).2
      have hgtl : ∀ d3 g3, (d3, g3) ∈ tl → g3 = pref.filter (fun x => kf x == d3) :=
        fun d3 g3 h3 => hg d3 g3 (List.mem_cons_of_mem _ h3)
      by_cases hk : k = d
      · simp only [upsert, if_pos hk] at hin
        rcases List.mem_cons.mp hin with hhd | htl
        · injection hhd with hd2 hg2
          subst hd2
          have hgk : g = pref.filter (fun x => kf x == d2) :=
            hg d2 g (List.mem_cons_self _ _)
          rw [hg2, hgk, List.filter_append]
          have hsing : [p].filter (fun x => kf x == d2) = [p] := by
            simp [hdp, hk]
          rw [hsing]
        · have hg2 : g2 = pref.filter (fun x => kf x == d2) := hgtl d2 g2 htl
          have hd2tl : d2 ∈ tl.map Prod.fst := List.mem_map.mpr ⟨(d2, g2), htl, rfl⟩
          have hne : kf p ≠ d2 := by
            rw [hdp, ← hk]
            intro hEq
            exact hndk (hEq ▸ hd2tl)
          rw [hg2, List.filter_append]
          have hsing : [p].filter (fun x => kf x == d2) = [] := by
            simp [hne]
          rw [hsing, List.append_nil]
      · simp only [upsert, if_neg hk] at hin
        rcases List.mem_cons.mp hin with hhd | htl
        · injection hhd with hd2 hg2
          subst hd2
          have hgk : g = pref.filter (fun x => kf x == d2) :=
            hg d2 g (List.mem_cons_self _ _)
          have hne : kf p ≠ d2 := by rw [hdp]; exact fun hEq => hk hEq.symm
          rw [hg2, hgk, List.filter_append]
          have hsing : [p].filter (fun x => kf x == d2) = [] := by
            simp [hne]
          rw [hsing, List.append_nil]
        · have hmemtl : d ∈ tl.map Prod.fst := by
            simp only [List.map_cons, List.mem_cons] at hmem
            rcases hmem with h | h
            · exact absurd h.symm hk
            · exact h
          exact ih hndtl hgtl hmemtl d2 g2 htl

/-- Filter characterisation is preserved by `upsert` when the photo's key is
fresh. -/
theorem upsert_groups_of_not_mem (kf : Photo → String) (p : Photo) (d : String)
    (hdp : kf p = d) (pref : List Photo)
    (acc : List (String × List Photo))
    (hg : ∀ d2 g2, (d2, g2) ∈ acc → g2 = pref.filter (fun x => kf x == d2))
    (hperm : (acc.flatMap Prod.snd).Perm pref)
    (hfresh : d ∉ acc.map Prod.fst) :
    ∀ d2 g2, (d2, g2) ∈ upsert d p acc →
      g2 = (pref ++ [p]).filter (fun x => kf x == d2) := by
  intro d2 g2 hin
  rw [upsert_of_not_mem d p acc hfresh] at hin
  rcases List.mem_append.mp hin with hold | hnew
  · have hg2 : g2 = pref.filter (fun x => kf x == d2) := hg d2 g2 hold
    have hd2mem : d2 ∈ acc.map Prod.fst := List.mem_map.mpr ⟨(d2, g2), hold, rfl⟩
    have hne : kf p ≠ d2 := by
      rw [hdp]
      intro hEq
      exact hfresh (hEq ▸ hd2mem)
    rw [hg2, List.filter_append]
    have : [p].filter (fun x => kf x == d2) = [] := by simp [hne]
    rw [this, List.append_nil]
  · have : d2 = d ∧ g2 = [p] := by
      simpa using hnew
    obtain ⟨hd2, hg2⟩ := this
    subst hd2
    rw [hg2, List.filter_append]
    have h1 : pref.filter (fun x => kf x == d2) = [] :=
      filter_key_nil_of_fresh kf pref acc d2 hg hperm hfresh
    have h2 : [p].filter (fun x => kf x == d2) = [p] := by simp [hdp]
    rw [h1, h2, List.nil_append]

end Frontend

namespace Frontend

/-- `upsert` keeps the group keys duplicate-free. -/
theorem upsert_map_fst_nodup (d : String) (p : Photo)
    (acc : List (String × List Photo)) (hnd : (acc.map Prod.fst).Nodup) :
    ((upsert d p acc).map Prod.fst).Nodup := by
  by_cases h : d ∈ acc.map Prod.fst
  · rw [upsert_map_fst_of_mem d p acc h]
    exact hnd
  · rw [upsert_of_not_mem d p acc h]
    simp [List.nodup_append, hnd, h]

/-- Main invariant of the grouping fold: starting from groups that describe
a processed prefix exactly, folding the remaining photos yields groups that
describe the whole list exactly — keys duplicate-free, each group equal to
the filter of the input by its key, and the groups' concatenation a
permutation of the input. -/
theorem groupAux_spec (kf : Photo → String) :
    ∀ (ps : List Photo) (acc : List (String × List Photo)) (pref : List Photo),
      (acc.map Prod.fst).Nodup →
      (∀ d2 g2, (d2, g2) ∈ acc → g2 = pref.filter (fun x => kf x == d2)) →
      ((acc.flatMap Prod.snd).Perm pref) →
      (((ps.foldl (fun a q => upsert (kf q) q a) acc).map Prod.fst).Nodup ∧
        (∀ d2 g2, (d2, g2) ∈ ps.foldl (fun a q => upsert (kf q) q a) acc →
          g2 = (pref ++ ps).filter (fun x => kf x == d2)) ∧
        ((ps.foldl (fun a q => upsert (kf q) q a) acc).flatMap Prod.snd).Perm (pref ++ ps)) := by
  intro ps
  induction ps with
  | nil =>
      intro acc pref hnd hg hperm
      simp only [List.foldl_nil, List.append_nil]
      exact ⟨hnd, hg, hperm⟩
  | cons p ps ih =>
      intro acc pref hnd hg hperm
      have hstep_nd : ((upsert (kf p) p acc).map Prod.fst).Nodup :=
        upsert_map_fst_nodup (kf p) p acc hnd
      have hstep_g : ∀ d2 g2, (d2, g2) ∈ upsert (kf p) p acc →
          g2 = (pref ++ [p]).filter (fun x => kf x == d2) := by
        by_cases h : kf p ∈ acc.map Prod.fst
        · exact upsert_groups_of_mem kf p (kf p) rfl pref acc hnd hg h
        · exact upsert_groups_of_not_mem kf p (kf p) rfl pref acc hg hperm h
      have hstep_perm : ((upsert (kf p) p acc).flatMap Prod.snd).Perm (pref ++ [p]) :=
        (upsert_flatMap_perm (kf p) p acc).trans (hperm.append_right [p])
      have hmain := ih (upsert (kf p) p acc) (pref ++ [p]) hstep_nd hstep_g hstep_perm
      rw [List.foldl_cons]
      have hra : (pref ++ [p]) ++ ps = pref ++ (p :: ps) := by simp
      rw [← hra]
      exact hmain

/-- C9: `groupByDate` partitions its input — for any day-string formatter,
the produced group keys are duplicate-free, each group is exactly the input
photos whose formatted upload date equals its key (in input order), the
concatenation of all groups is a permutation of the input (so each input
photo lands in exactly one group exactly once), the group sizes sum to the
input length, and two grouped photos share a group key precisely when their
upload dates format to the same day string. -/
theorem groupByDate_partition (dateKey : String → String) (ps : List Photo) :
    ((groupByDate dateKey ps).map Prod.fst).Nodup ∧
    (∀ d g, (d, g) ∈ groupByDate dateKey ps →
        g = ps.filter (fun p => dateKey p.upload_date == d)) ∧
    (((groupByDate dateKey ps).flatMap Prod.snd).Perm ps) ∧
    (((groupByDate dateKey ps).map (fun g => g.2.length)).sum = ps.length) ∧
    (∀ d g d2 g2 p q, (d, g) ∈ groupByDate dateKey ps →
        (d2, g2) ∈ groupByDate dateKey ps → p ∈ g → q ∈ g2 →
        (dateKey p.upload_date = dateKey q.upload_date ↔ d = d2)) := by
  have h := groupAux_spec (fun q => dateKey q.upload_date) ps [] []
    (by simp) (by simp) (by simp)
  have hmain : ((groupByDate dateKey ps).map Prod.fst).Nodup ∧
      (∀ d2 g2, (d2, g2) ∈ groupByDate dateKey ps →
        g2 = ps.filter (fun x => dateKey x.upload_date == d2)) ∧
      ((groupByDate dateKey ps).flatMap Prod.snd).Perm ps := by
    simpa [groupByDate] using h
  obtain ⟨hnd, hg, hperm⟩ := hmain
  refine ⟨hnd, hg, hperm, ?_, ?_⟩
  · have hlen := List.length_flatMap (groupByDate dateKey ps) Prod.snd
    have hpl := hperm.length_eq
    rw [hlen] at hpl
    exact hpl
  · intro d g d2 g2 p q hdg hd2g2 hp hq
    have hgf := hg d g hdg
    have hg2f := hg d2 g2 hd2g2
    rw [hgf] at hp
    rw [hg2f] at hq
    have hpd : dateKey p.upload_date = d := by
      have := (List.mem_filter.mp hp).2
      simpa using this
    have hqd : dateKey q.upload_date = d2 := by
      have := (List.mem_filter.mp hq).2
      simpa using this
    rw [hpd, hqd]

end Frontend

namespace Engine

/-- The ranking relation is total. -/
theorem rank_total (a b : Nat × ℚ) : rank a b ∨ rank b a :=
  IsTotal.total a b

/-- Inserting into a sorted candidate list permutes consing. -/
theorem insertRank_perm (x : Nat × ℚ) :
    ∀ l : List (Nat × ℚ), (insertRank x l).Perm (x :: l) := by
  intro l
  induction l with
  | nil => simp [insertRank]
  | cons y ys ih =>
      by_cases h : rank x y
      · simp [insertRank, h]
      · simp only [insertRank, if_neg h]
        exact (ih.cons y).trans (List.Perm.swap x y ys)

/-- Inserting into a sorted candidate list keeps it sorted. -/
theorem insertRank_sorted (x : Nat × ℚ) :
    ∀ l : List (Nat × ℚ), l.Sorted rank → (insertRank x l).Sorted rank := by
  intro l
  induction l with
  | nil => intro _; simp [insertRank]
  | cons y ys ih =>
      intro hs
      have hy : ∀ b ∈ ys, rank y b := (List.sorted_cons.mp hs).1
      have hys : ys.Sorted rank := (List.sorted_cons.mp hs).2
      by_cases h : rank x y
      · rw [insertRank, if_pos h]
        refine List.sorted_cons.mpr ⟨?_, hs⟩
        intro b hb
        rcases List.mem_cons.mp hb with hb | hb
        · exact hb ▸ h
        · exact Trans.trans h (hy b hb)
      · rw [insertRank, if_neg h]
        have hyx : rank y x := (rank_total x y).resolve_left h
        refine List.sorted_cons.mpr ⟨?_, ih hys⟩
        intro b hb
        have hb2 : b ∈ x :: ys := (insertRank_perm x ys).mem_iff.mp hb
        rcases List.mem_cons.mp hb2 with hb2 | hb2
        · exact hb2 ▸ hyx
        · exact hy b hb2

/-- `sortRank` permutes its input. -/
theorem sortRank_perm : ∀ l : List (Nat × ℚ), (sortRank l).Perm l := by
  intro l
  induction l with
  | nil => simp [sortRank]
  | cons x xs ih =>
      exact (insertRank_perm x (sortRank xs)).trans (ih.cons x)

/-- `sortRank` sorts: descending similarity, ties by ascending id. -/
theorem sortRank_sorted : ∀ l : List (Nat × ℚ), (sortRank l).Sorted rank := by
  intro l
  induction l with
  | nil => simp [sortRank]
  | cons x xs ih => exact insertRank_sorted x (sortRank xs) ih

/-- Sorting is invariant under permutation of the candidates: the ordering
is linear (total, transitive, antisymmetric), so the sorted list is unique. -/
theorem sortRank_eq_of_perm (l1 l2 : List (Nat × ℚ)) (h : l1.Perm l2) :
    sortRank l1 = sortRank l2 :=
  List.eq_of_perm_of_sorted
    ((sortRank_perm l1).trans (h.trans (sortRank_perm l2).symm))
    (sortRank_sorted l1) (sortRank_sorted l2)

/-- C2: for every query vector and every `k`, `search_knn` fails with
`DimensionMismatch` exactly when the query's length differs from the
index's configured dimension; otherwise it returns at most `k`
`(id, score)` pairs, sorted by descending similarity with ties broken by
ascending id (`rank`), each scoring a live (non-tombstoned) entry of the
index by cosine similarity against the query. -/
theorem search_knn_spec (idx : SimIndex) (q : Vec) (k : Nat) :
    (q.length ≠ idx.dim →
      search_knn idx q k = Except.error VError.DimensionMismatch) ∧
    (q.length = idx.dim →
      ∃ l, search_knn idx q k = Except.ok l ∧
        l.length ≤ k ∧
        l.Sorted rank ∧
        (∀ e ∈ l, ∃ v, (e.1, v) ∈ idx.live ∧ e.2 = cosSimQ q v)) := by
  constructor
  · intro h
    simp [search_knn, h]
  · intro h
    refine ⟨(sortRank (idx.live.map (fun e => (e.1, cosSimQ q e.2)))).take k,
      by simp [search_knn, h], ?_, ?_, ?_⟩
    · exact List.length_take_le ..
    · exact (sortRank_sorted _).sublist (List.take_sublist ..)
    · intro e he
      have he2 : e ∈ sortRank (idx.live.map (fun e => (e.1, cosSimQ q e.2))) :=
        (List.take_sublist ..).subset he
      have he3 : e ∈ idx.live.map (fun e => (e.1, cosSimQ q e.2)) :=
        (sortRank_perm _).mem_iff.mp he2
      obtain ⟨ent, hent, heq⟩ := List.mem_map.mp he3
      refine ⟨ent.2, ?_, ?_⟩
      · rw [← heq]
        exact hent
      · rw [← heq]

/-- Witness for C2: the sample index has dimension 2; querying `[1, 0]`
for the top 2 succeeds with the guaranteed shape. -/
theorem search_knn_spec_witness :
    (([1, 0, 0] : Vec).length ≠ sampleIdx.dim ∧
      search_knn sampleIdx [1, 0, 0] 2 = Except.error VError.DimensionMismatch) ∧
    ([1, 0] : Vec).length = sampleIdx.dim ∧
    (∃ l, search_knn sampleIdx [1, 0] 2 = Except.ok l ∧
      l.length ≤ 2 ∧
      l.Sorted rank ∧
      (∀ e ∈ l, ∃ v, (e.1, v) ∈ sampleIdx.live ∧ e.2 = cosSimQ [1, 0] v)) :=
  ⟨⟨by decide, (search_knn_spec sampleIdx [1, 0, 0] 2).1 (by decide)⟩,
   rfl, (search_knn_spec sampleIdx [1, 0] 2).2 rfl⟩

end Engine

namespace Engine

/-- Shuffling the first two blocks of a three-block concatenation. -/
theorem perm_append_swap (a b c : List Nat) :
    (a ++ (b ++ c)).Perm (b ++ (a ++ c)) := by
  have h1 : a ++ (b ++ c) = (a ++ b) ++ c := (List.append_assoc ..).symm
  have h2 : ((a ++ b) ++ c).Perm ((b ++ a) ++ c) :=
    List.Perm.append_right c List.perm_append_comm
  have h3 : (b ++ a) ++ c = b ++ (a ++ c) := List.append_assoc ..
  rw [h1, ← h3]
  exact h2

/-- Removing a face id from the store removes it from the live ids. -/
theorem map_fst_filter_ne (store : List (Nat × Vec)) (fid : Nat) :
    (store.filter (fun e => e.1 != fid)).map Prod.fst
      = (store.map Prod.fst).filter (fun x => x != fid) := by
  induction store with
  | nil => rfl
  | cons a t ih =>
      by_cases h : a.1 = fid
      · simp [List.filter_cons, h, ih]
      · simp [List.filter_cons, h, ih]

/-- Destroying emptied clusters does not change the grouped face ids. -/
theorem flatMap_filter_nonempty (cs : List Cl) :
    ((cs.filter (fun c => !c.members.isEmpty)).flatMap Cl.members)
      = cs.flatMap Cl.members := by
  induction cs with
  | nil => rfl
  | cons c t ih =>
      by_cases h : c.members.isEmpty
      · have hm : c.members = [] := by simpa using h
        simp [List.filter_cons, h, hm, ih]
      · simp [List.filter_cons, h, ih]

/-- Prepending members into the first cluster with a given id adds exactly
those members to the grouped face ids. -/
theorem updateFirst_flatMap_perm (cid : Nat) (ms : List Nat) (f : Cl → Cl)
    (hf : ∀ c, (f c).members = ms ++ c.members) :
    ∀ cs : List Cl, cid ∈ cs.map Cl.cid →
      ((updateFirst cid f cs).flatMap Cl.members).Perm (ms ++ cs.flatMap Cl.members) := by
  intro cs
  induction cs with
  | nil => intro h; simp at h
  | cons c t ih =>
      intro hmem
      by_cases h : c.cid = cid
      · simp only [updateFirst, if_pos h, List.flatMap_cons, hf c]
        rw [List.append_assoc]
      · simp only [updateFirst, if_neg h, List.flatMap_cons]
        have hmem2 : cid ∈ t.map Cl.cid := by
          simp only [List.map_cons, List.mem_cons] at hmem
          rcases hmem with hx | hx
          · exact absurd hx.symm h
          · exact hx
        exact (List.Perm.append_left c.members (ih hmem2)).trans
          (perm_append_swap c.members ms (t.flatMap Cl.members))

/-- Extracting the first cluster with a given id splits the grouped face
ids accordingly. -/
theorem extractFirst_flatMap_perm (cid : Nat) :
    ∀ (cs : List Cl) (B : Cl) (rest : List Cl),
      extractFirst cid cs = some (B, rest) →
      (cs.flatMap Cl.members).Perm (B.members ++ rest.flatMap Cl.members) := by
  intro cs
  induction cs with
  | nil => intro B rest h; simp [extractFirst] at h
  | cons c t ih =>
      intro B rest h
      by_cases hc : c.cid = cid
      · rw [extractFirst, if_pos hc] at h
        have hBr : c = B ∧ t = rest := by
          simpa using h
        obtain ⟨hB, hrest⟩ := hBr
        subst hB
        subst hrest
        simp [List.flatMap_cons]
      · rcases hx : extractFirst cid t with _ | ⟨x, r⟩
        · rw [extractFirst, if_neg hc, hx] at h
          simp at h
        · rw [extractFirst, if_neg hc, hx] at h
          have hBr : x = B ∧ c :: r = rest := by
            simpa using h
          obtain ⟨hB, hrest⟩ := hBr
          subst hB
          subst hrest
          simp only [List.flatMap_cons]
          exact (List.Perm.append_left c.members (ih x r hx)).trans
            (perm_append_swap c.members x.members (r.flatMap Cl.members))

/-- The cluster chosen for a new face is one of the existing clusters. -/
theorem chooseBest_mem (v : Vec) (cs : List Cl) (cid : Nat) (s : ℚ)
    (h : chooseBest v cs = some (cid, s)) : cid ∈ cs.map Cl.cid := by
  unfold chooseBest at h
  have hmem : (cid, s) ∈ sortRank (scoreClusters v cs) :=
    List.mem_of_mem_head? (by simp [h])
  have hmem2 : (cid, s) ∈ scoreClusters v cs := (sortRank_perm _).mem_iff.mp hmem
  unfold scoreClusters at hmem2
  obtain ⟨c, hc, heq⟩ := List.mem_map.mp hmem2
  have hcid : c.cid = cid := congrArg Prod.fst heq
  exact List.mem_map.mpr ⟨c, hc, hcid⟩

end Engine

namespace Engine

/-- Invariant preservation: one operation keeps the live ids duplicate-free
and keeps the grouped cluster members a permutation of the live ids. -/
theorem step_preserves (E : EngineState) (op : Op)
    (h1 : (liveIds E).Nodup)
    (h2 : (E.clusters.flatMap Cl.members).Perm (liveIds E)) :
    (liveIds (step E op)).Nodup ∧
      ((step E op).clusters.flatMap Cl.members).Perm (liveIds (step E op)) := by
  cases op with
  | assignOp fid v =>
      by_cases hdim : v.length ≠ E.dim
      · simp only [step, assign, if_pos hdim]
        exact ⟨h1, h2⟩
      · by_cases hc : (E.store.map Prod.fst).contains fid = true
        · simp only [step, assign, if_neg hdim, hc, if_true]
          exact ⟨h1, h2⟩
        · have hfid : fid ∉ liveIds E := by
            simpa [liveIds] using hc
          have hcbool : (E.store.map Prod.fst).contains fid = false := by
            simpa using hc
          cases hcb : chooseBest v E.clusters with
          | none =>
              simp only [step, assign, if_neg hdim, hcbool, Bool.false_eq_true, if_false, hcb]
              constructor
              · simp only [liveIds, List.map_cons]
                exact List.nodup_cons.mpr ⟨hfid, h1⟩
              · simp only [liveIds, List.map_cons, List.flatMap_append,
                  List.flatMap_cons, List.flatMap_nil, List.append_nil]
                refine List.perm_append_comm.trans ?_
                rw [List.singleton_append]
                exact h2.cons fid
          | some pr =>
              obtain ⟨cid, s⟩ := pr
              by_cases ht : E.threshold ≤ s
              · simp only [step, assign, if_neg hdim, hcbool, Bool.false_eq_true, if_false,
                  hcb, if_pos ht]
                constructor
                · simp only [liveIds, List.map_cons]
                  exact List.nodup_cons.mpr ⟨hfid, h1⟩
                · simp only [liveIds, List.map_cons]
                  have hcid : cid ∈ E.clusters.map Cl.cid := chooseBest_mem v E.clusters cid s hcb
                  have hup := updateFirst_flatMap_perm cid [fid]
                    (fun c => Cl.mk c.cid (fid :: c.members)
                      (centroid E.dim (memberVecs ((fid, v) :: E.store) (fid :: c.members))))
                    (fun c => rfl) E.clusters hcid
                  refine hup.trans ?_
                  rw [List.singleton_append]
                  exact h2.cons fid
              · simp only [step, assign, if_neg hdim, hcbool, Bool.false_eq_true, if_false,
                  hcb, if_neg ht]
                constructor
                · simp only [liveIds, List.map_cons]
                  exact List.nodup_cons.mpr ⟨hfid, h1⟩
                · simp only [liveIds, List.map_cons, List.flatMap_append,
                    List.flatMap_cons, List.flatMap_nil, List.append_nil]
                  refine List.perm_append_comm.trans ?_
                  rw [List.singleton_append]
                  exact h2.cons fid
  | removeOp fid =>
      by_cases hc : (E.store.map Prod.fst).contains fid = true
      · simp only [step, removeFace, hc, if_true]
        constructor
        · simp only [liveIds, map_fst_filter_ne]
          exact h1.filter _
        · simp only [liveIds, map_fst_filter_ne, flatMap_filter_nonempty, List.flatMap_map]
          rw [← List.filter_flatMap]
          exact h2.filter _
      · have hcbool : (E.store.map Prod.fst).contains fid = false := by simpa using hc
        simp only [step, removeFace, hcbool, Bool.false_eq_true, if_false]
        exact ⟨h1, h2⟩
  | mergeOp a b =>
      by_cases hab : a = b
      · simp only [step, mergeClusters, if_pos hab]
        exact ⟨h1, h2⟩
      · cases hex : extractFirst b E.clusters with
        | none =>
            simp only [step, mergeClusters, if_neg hab, hex]
            exact ⟨h1, h2⟩
        | some pr =>
            obtain ⟨bCl, rest⟩ := pr
            by_cases hmem : (rest.map Cl.cid).contains a = true
            · simp only [step, mergeClusters, if_neg hab, hex, hmem, if_true]
              refine ⟨h1, ?_⟩
              have hamem : a ∈ rest.map Cl.cid := by simpa using hmem
              have hup := updateFirst_flatMap_perm a bCl.members
                (fun c => Cl.mk c.cid (bCl.members ++ c.members)
                  (centroid E.dim (memberVecs E.store (bCl.members ++ c.members))))
                (fun c => rfl) rest hamem
              have hext := extractFirst_flatMap_perm b E.clusters bCl rest hex
              exact hup.trans (hext.symm.trans h2)
            · have hmbool : (rest.map Cl.cid).contains a = false := by simpa using hmem
              simp only [step, mergeClusters, if_neg hab, hex, hmbool,
                Bool.false_eq_true, if_false]
              exact ⟨h1, h2⟩

end Engine

namespace Engine

/-- Replaying any operation sequence from the fresh engine maintains the
invariant: duplicate-free live ids, grouped members a permutation of them. -/
theorem replay_inv (cfg : EngineConfig) (ops : List Op) :
    (liveIds (replay cfg ops)).Nodup ∧
      ((replay cfg ops).clusters.flatMap Cl.members).Perm (liveIds (replay cfg ops)) := by
  have hgen : ∀ (l : List Op) (E : EngineState),
      (liveIds E).Nodup → ((E.clusters.flatMap Cl.members).Perm (liveIds E)) →
      (liveIds (l.foldl step E)).Nodup ∧
        ((l.foldl step E).clusters.flatMap Cl.members).Perm (liveIds (l.foldl step E)) := by
    intro l
    induction l with
    | nil =>
        intro E hn hp
        simpa using ⟨hn, hp⟩
    | cons op t ih =>
        intro E hn hp
        rw [List.foldl_cons]
        obtain ⟨hn2, hp2⟩ := step_preserves E op hn hp
        exact ih (step E op) hn2 hp2
  exact hgen ops (initEngine cfg) (by simp [liveIds, initEngine])
    (by simp [liveIds, initEngine])

/-- C1: after every sequence of assign, remove and merge operations the
clusters partition the currently live face set — no face id occurs twice
across (or within) clusters, a face id is live exactly when some cluster
contains it, and the cluster sizes sum to the live face count. -/
theorem cluster_partition_invariant (cfg : EngineConfig) (ops : List Op) :
    ((replay cfg ops).clusters.flatMap Cl.members).Nodup ∧
    (∀ f, f ∈ liveIds (replay cfg ops) ↔
        ∃ c ∈ (replay cfg ops).clusters, f ∈ c.members) ∧
    ((replay cfg ops).clusters.map (fun c => c.members.length)).sum
        = (replay cfg ops).store.length := by
  obtain ⟨h1, h2⟩ := replay_inv cfg ops
  refine ⟨h2.nodup_iff.mpr h1, ?_, ?_⟩
  · intro f
    rw [← h2.mem_iff, List.mem_flatMap]
  · have hlen := List.length_flatMap (replay cfg ops).clusters Cl.members
    have hperm := h2.length_eq
    rw [hlen] at hperm
    simpa [liveIds] using hperm

/-- Witness for C1: the partition invariant evaluated on the spec's §8
example scenario. -/
theorem cluster_partition_invariant_witness :
    ((replay sampleCfg sampleOps).clusters.flatMap Cl.members).Nodup ∧
    (∀ f, f ∈ liveIds (replay sampleCfg sampleOps) ↔
        ∃ c ∈ (replay sampleCfg sampleOps).clusters, f ∈ c.members) ∧
    ((replay sampleCfg sampleOps).clusters.map (fun c => c.members.length)).sum
        = (replay sampleCfg sampleOps).store.length :=
  cluster_partition_invariant sampleCfg sampleOps

/-- C7: replay is deterministic — the same insertion sequence with the same
threshold produces the identical cluster partition, and the greedy cluster
choice does not even depend on the enumeration order of the candidate
clusters (ties are broken toward the lower cluster id, making the selection
order-invariant). -/
theorem replay_deterministic (cfg : EngineConfig) (ops1 ops2 : List Op)
    (v : Vec) (cs1 cs2 : List Cl)
    (hops : ops1 = ops2) (hperm : cs1.Perm cs2) :
    partitionOf (replay cfg ops1) = partitionOf (replay cfg ops2) ∧
    chooseBest v cs1 = chooseBest v cs2 := by
  constructor
  · rw [hops]
  · unfold chooseBest scoreClusters
    rw [sortRank_eq_of_perm _ _ (hperm.map _)]

/-- Witness for C7: the example replay equals itself and the cluster choice
agrees across the two enumeration orders of two sample clusters. -/
theorem replay_deterministic_witness :
    partitionOf (replay sampleCfg sampleOps) = partitionOf (replay sampleCfg sampleOps) ∧
    chooseBest [1, 0] [sampleClA, sampleClB] = chooseBest [1, 0] [sampleClB, sampleClA] :=
  replay_deterministic sampleCfg sampleOps sampleOps [1, 0]
    [sampleClA, sampleClB] [sampleClB, sampleClA] rfl (List.Perm.swap _ _ _)

end Engine

namespace Frontend

/-- Witness for C8: deleting photo a from the sample state keeps photos b
and c in order and leaves clusters and categories untouched. -/
theorem deletePhoto_success_spec_witness :
    List.Sublist (deletePhoto sampleState "a" (Except.ok ()) (Except.error "x")).1.photos
      sampleState.photos ∧
    (∀ p : Photo,
      p ∈ (deletePhoto sampleState "a" (Except.ok ()) (Except.error "x")).1.photos ↔
        p ∈ sampleState.photos ∧ p.id ≠ "a") ∧
    (deletePhoto sampleState "a" (Except.ok ()) (Except.error "x")).1.clusters
      = sampleState.clusters ∧
    (deletePhoto sampleState "a" (Except.ok ()) (Except.error "x")).1.categories
      = sampleState.categories :=
  deletePhoto_success_spec sampleState "a" (Except.error "x")

/-- Witness for C9: the grouping guarantees evaluated at the identity
formatter on three sample photos over two dates. -/
theorem groupByDate_partition_witness :
    ((groupByDate (fun s => s) [mkPhotoAt "a" "d1", mkPhotoAt "b" "d1",
        mkPhotoAt "c" "d2"]).map Prod.fst).Nodup ∧
    (∀ d g, (d, g) ∈ groupByDate (fun s => s) [mkPhotoAt "a" "d1", mkPhotoAt "b" "d1",
        mkPhotoAt "c" "d2"] →
      g = [mkPhotoAt "a" "d1", mkPhotoAt "b" "d1", mkPhotoAt "c" "d2"].filter
        (fun p => p.upload_date == d)) ∧
    (((groupByDate (fun s => s) [mkPhotoAt "a" "d1", mkPhotoAt "b" "d1",
        mkPhotoAt "c" "d2"]).flatMap Prod.snd).Perm
      [mkPhotoAt "a" "d1", mkPhotoAt "b" "d1", mkPhotoAt "c" "d2"]) ∧
    (((groupByDate (fun s => s) [mkPhotoAt "a" "d1", mkPhotoAt "b" "d1",
        mkPhotoAt "c" "d2"]).map (fun g => g.2.length)).sum = 3) ∧
    (∀ d g d2 g2 p q, (d, g) ∈ groupByDate (fun s => s) [mkPhotoAt "a" "d1",
        mkPhotoAt "b" "d1", mkPhotoAt "c" "d2"] →
      (d2, g2) ∈ groupByDate (fun s => s) [mkPhotoAt "a" "d1", mkPhotoAt "b" "d1",
        mkPhotoAt "c" "d2"] → p ∈ g → q ∈ g2 →
      (p.upload_date = q.upload_date ↔ d = d2)) :=
  groupByDate_partition (fun s => s) [mkPhotoAt "a" "d1", mkPhotoAt "b" "d1",
    mkPhotoAt "c" "d2"]

end Frontend
